import Mathlib

/-!
Shallow embedding of the SmugMug bulk downloader (src/download.py) and
verification of the frozen claims about it.

Modelling conventions:
* Machine-level I/O (HTTP requests, the filesystem) is made explicit: every
  network call's outcome is an oracle value carried in the input data, and the
  filesystem is a list of (path, content) pairs threaded through the state.
* Paths are lists of components, relative to the downloader's base path.
* Python dictionaries are association lists with first-match lookup and
  cons insertion (latest binding wins, as in Python assignment).
* Python `while` loops searching for a free numeric suffix are embedded with
  explicit fuel (`taken.length + 1` attempts), which is enough by pigeonhole;
  the termination argument of the source loop is exactly that pigeonhole.
-/

/-- Decimal digits of `n`, most significant first, as produced by Python's
`str`/f-string formatting of a non-negative integer.  Fuel-based so that the
kernel can evaluate it;  `fuel = n` always suffices. -/
def natDigitsAux : Nat → Nat → List Char
  | 0, _ => []
  | fuel + 1, n => if n = 0 then [] else natDigitsAux fuel (n / 10) ++ [Nat.digitChar (n % 10)]

/-- The decimal numeral of `n` (Python `str(n)` for a natural number). -/
def natStr (n : Nat) : String :=
  if n = 0 then "0" else (natDigitsAux n n).asString

/-- Numeric value of a decimal digit character (inverse of `Nat.digitChar`). -/
def charVal (c : Char) : Nat := c.toNat - 48

/-- Value of a most-significant-first list of decimal digit characters. -/
def digitsVal (l : List Char) : Nat := l.foldl (fun a c => 10 * a + charVal c) 0

/-- `findFreeCounter taken mk fuel c` embeds the source's
`counter = c; while mk(counter) in taken: counter += 1` loops (used both for
filename-collision renaming and for quarantine de-duplication).  The source
loop terminates because `taken` is finite and the candidates are pairwise
distinct; fuel `taken.length + 1` realises that argument. -/
def findFreeCounter {α : Type} [DecidableEq α] (taken : List α) (mk : Nat → α) :
    Nat → Nat → Nat
  | 0, c => c
  | fuel + 1, c => if mk c ∈ taken then findFreeCounter taken mk fuel (c + 1) else c

/-- `pathlib.PurePath(s).name`: the final path component (no trailing slash
handling, which the downloader never exercises). -/
def pyName (s : String) : String :=
  ((s.data.reverse.takeWhile (fun c => c ≠ '/')).reverse).asString

/-- `pathlib` stem/suffix split of a file name: `Path(s).stem, Path(s).suffix`.
The suffix is `name[i:]` for the last `.` at position `i` with `0 < i < len-1`,
otherwise empty. -/
def pySplitExt (filename : String) : String × String :=
  let n := (pyName filename).data
  let afterDot := n.reverse.takeWhile (fun c => c ≠ '.')
  if afterDot.length < n.length ∧ 1 ≤ afterDot.length ∧ afterDot.length < n.length - 1 then
    ((n.take (n.length - 1 - afterDot.length)).asString,
     (n.drop (n.length - 1 - afterDot.length)).asString)
  else (n.asString, "")

/-- The reserved characters replaced by `sanitize_filename`
(`invalid_chars = '<>:"/\\|?*'` in the source). -/
def invalid_chars : List Char := ['<', '>', ':', '"', '/', '\\', '|', '?', '*']

/-- `SmugMugDownloader.sanitize_filename`: replace each reserved character by
`_` (the source's sequential `str.replace` calls are a per-character map, since
`_` is not itself reserved), strip leading/trailing dots and spaces, truncate
to 200 characters, and fall back to `'unnamed'` when empty. -/
def sanitize_filename (name : String) : String :=
  let replaced := name.data.map (fun c => if c ∈ invalid_chars then '_' else c)
  let stripped :=
    ((replaced.dropWhile (fun c => c = '.' ∨ c = ' ')).reverse.dropWhile
      (fun c => c = '.' ∨ c = ' ')).reverse
  let truncated := if 200 < stripped.length then stripped.take 200 else stripped
  if truncated = [] then "unnamed" else truncated.asString

/-- Concrete input refuting idempotence of `sanitize_filename`: 199 `a`s, a
dot, then `b`.  Sanitizing once truncates to 200 characters exposing a
trailing dot; sanitizing again strips it. -/
def sanitizeCexInput : String := (List.replicate 199 'a' ++ ['.', 'b']).asString

/-- Oracle for the outcome of the streaming `requests.get` of one image:
success, an `HTTPError` from `raise_for_status` (raised before the output file
is opened), a timeout, or any other exception; for the latter two,
`wrotePart` records whether some bytes had already been written to the
destination file when the exception fired. -/
inductive TransferResult where
  | success
  | httpError (status : Nat)
  | timeout (wrotePart : Bool)
  | otherError (excName : String) (msg : String) (wrotePart : Bool)
deriving DecidableEq

/-- One image record of an album listing.  The first six fields are the JSON
fields the downloader reads (`dict.get` defaults: `""` encodes an absent
`ImageKey`/`Uri`, `none` an absent `FileName`).  The last two fields are
oracles for the network: the value `get_image_download_url` would resolve to,
and the outcome of the subsequent transfer. -/
structure ImageInfo where
  imageKey : String
  uri : String
  fileName : Option String
  title : String
  caption : String
  keywords : String
  urlResult : Option String
  transfer : TransferResult
deriving DecidableEq

/-- First-match lookup membership in a Python-dict association list. -/
def dictContains (d : List (String × String)) (k : String) : Bool :=
  d.any (fun p => p.1 = k)

/-- First-match lookup in a Python-dict association list (defaults to `""`;
the source only reads keys known to be present). -/
def dictGet (d : List (String × String)) (k : String) : String :=
  ((d.find? (fun p => p.1 = k)).map Prod.snd).getD ""

/-- State of the duplicate/collision pre-processing loop of `process_album`
(source lines 353-401): the two local dicts, the plan being built, and the
duplicate/rename statistics the loop appends to on the downloader object. -/
structure PlanState where
  seen_image_keys : List (String × String)
  used_filenames : List (String × String)
  processed_images : List (ImageInfo × String)
  duplicate_log : List (String × String × String × String)
  renamed_files : List (String × String × String)
  total_duplicates : Nat
  total_renamed : Nat
deriving DecidableEq

/-- Empty initial state of the planning loop. -/
def initPlanState : PlanState :=
  { seen_image_keys := [], used_filenames := [], processed_images := [],
    duplicate_log := [], renamed_files := [], total_duplicates := 0, total_renamed := 0 }

/-- The identity key of the image at position `idx`
(`image_key` when present, else `"uri_" + uri` when present, else `"idx_" + idx`). -/
def uniqueId (idx : Nat) (image : ImageInfo) : String :=
  if image.imageKey = "" then
    (if image.uri = "" then "idx_" ++ natStr idx else "uri_" ++ image.uri)
  else image.imageKey

/-- The candidate filename of the image at position `idx`
(`image.get('FileName', f"image_{image_key if image_key else idx}")`). -/
def originalFilename (idx : Nat) (image : ImageInfo) : String :=
  match image.fileName with
  | some f => f
  | none => "image_" ++ (if image.imageKey = "" then natStr idx else image.imageKey)

/-- The renamed filename the collision branch of the loop picks: the stem of
the colliding name with the first `_2`, `_3`, ... suffix not yet a key of
`used_filenames` (the source's `while` loop). -/
def collisionFinal (orig : String) (used : List (String × String)) : String :=
  let base_name := (pySplitExt orig).1
  let extension := (pySplitExt orig).2
  let taken := used.map Prod.fst
  let counter := findFreeCounter taken
    (fun c => base_name ++ "_" ++ natStr c ++ extension) (taken.length + 1) 2
  base_name ++ "_" ++ natStr counter ++ extension

/-- One iteration of the dedup/collision loop of `process_album` for the image
at input position `idx`. -/
def planStep (album_name : String) (idx : Nat) (image : ImageInfo) (s : PlanState) :
    PlanState :=
  let original_filename := originalFilename idx image
  let unique_id := uniqueId idx image
  if dictContains s.seen_image_keys unique_id then
    let original_file := dictGet s.seen_image_keys unique_id
    let reason := "True duplicate (ID=" ++ unique_id ++ ", already seen as " ++
      original_file ++ ")"
    { s with total_duplicates := s.total_duplicates + 1,
             duplicate_log := s.duplicate_log ++
               [(unique_id, original_filename, album_name, reason)] }
  else if dictContains s.used_filenames original_filename then
    let final_filename := collisionFinal original_filename s.used_filenames
    { s with total_renamed := s.total_renamed + 1,
             renamed_files := s.renamed_files ++
               [(original_filename, final_filename, album_name)],
             seen_image_keys := (unique_id, original_filename) :: s.seen_image_keys,
             used_filenames := (final_filename, unique_id) :: s.used_filenames,
             processed_images := s.processed_images ++ [(image, final_filename)] }
  else
    { s with seen_image_keys := (unique_id, original_filename) :: s.seen_image_keys,
             used_filenames := (original_filename, unique_id) :: s.used_filenames,
             processed_images := s.processed_images ++ [(image, original_filename)] }

/-- The dedup/collision loop, starting at input position `idx`. -/
def planAux (album_name : String) : Nat → List ImageInfo → PlanState → PlanState
  | _, [], s => s
  | idx, image :: rest, s =>
      planAux album_name (idx + 1) rest (planStep album_name idx image s)

/-- The per-album planning step of `process_album`: the dedup/collision loop
run over the album's image sequence from the empty dictionaries. -/
def process_album_plan (album_name : String) (images : List ImageInfo) : PlanState :=
  planAux album_name 0 images initPlanState

/-- The identity keys of an image sequence, in input order. -/
def albumUids (images : List ImageInfo) : List String :=
  images.enum.map (fun p => uniqueId p.1 p.2)

/-- Run-wide mutable state of the downloader object plus the modelled
filesystem: a list of (path, content) pairs, paths being component lists
relative to the base directory. -/
structure RunState where
  files : List (List String × String)
  total_downloaded : Nat
  total_skipped : Nat
  total_images : Nat
  total_albums : Nat
  total_folders : Nat
  total_metadata_saved : Nat
  total_album_metadata_saved : Nat
  total_duplicates : Nat
  total_renamed : Nat
  failed_downloads : List (String × String × String)
  duplicate_log : List (String × String × String × String)
  renamed_files : List (String × String × String)
  skipped_log : List (String × String × String × List String × List String)
deriving DecidableEq

/-- Paths of the files currently present. -/
def fsPaths (files : List (List String × String)) : List (List String) :=
  files.map Prod.fst

/-- Writing a file (`open(path, 'w'/'wb')` then writing): overwrite semantics. -/
def fsWrite (files : List (List String × String)) (p : List String) (c : String) :
    List (List String × String) :=
  (p, c) :: files.filter (fun e => decide (e.1 ≠ p))

/-- `path.unlink()`. -/
def fsUnlink (files : List (List String × String)) (p : List String) :
    List (List String × String) :=
  files.filter (fun e => decide (e.1 ≠ p))

/-- Sidecar body written by `save_image_metadata`: the present fields, one
labeled line each, in the order Title, Caption, Keywords. -/
def image_sidecar_content (image_info : ImageInfo) : String :=
  (if image_info.title ≠ "" then "Title: " ++ image_info.title ++ "\n" else "") ++
  (if image_info.caption ≠ "" then "Caption: " ++ image_info.caption ++ "\n" else "") ++
  (if image_info.keywords ≠ "" then "Keywords: " ++ image_info.keywords ++ "\n" else "")

/-- `SmugMugDownloader.save_image_metadata`: derive the sidecar path by
replacing the image filename's extension with `.txt`; no-op when that file
already exists or all three fields are empty, else write the sidecar. -/
def save_image_metadata (image_info : ImageInfo) (image_path : List String)
    (st : RunState) : RunState :=
  let metadata_path := image_path.dropLast ++
    [(pySplitExt ((image_path.getLast?).getD "")).1 ++ ".txt"]
  if metadata_path ∈ fsPaths st.files then st
  else if image_info.title = "" ∧ image_info.caption = "" ∧ image_info.keywords = "" then st
  else { st with files := fsWrite st.files metadata_path (image_sidecar_content image_info),
                 total_metadata_saved := st.total_metadata_saved + 1 }

/-- Outcome of one page request of the album-images listing: HTTP failure
(non-200), a transport/parse exception, or a JSON page with its images and
optional `NextPage` cursor. -/
inductive PageResult where
  | httpError (status : Nat)
  | exn (msg : String)
  | ok (images : List ImageInfo) (nextPage : Option String)
deriving DecidableEq

/-- An album as read from the albums listing plus the oracle for its
paginated image listing.  `name = none` encodes an absent `Name` field (the
source applies different `dict.get` defaults at different sites). -/
structure AlbumInfo where
  name : Option String
  description : String
  keywords : String
  uri : String
  pages : List PageResult
deriving DecidableEq

/-- Sidecar body written by `save_album_metadata`, fields in the order
Gallery Title, Gallery Description, Keywords. -/
def album_sidecar_content (album_info : AlbumInfo) : String :=
  let name := album_info.name.getD ""
  (if name ≠ "" then "Gallery Title: " ++ name ++ "\n" else "") ++
  (if album_info.description ≠ "" then
    "Gallery Description: " ++ album_info.description ++ "\n" else "") ++
  (if album_info.keywords ≠ "" then "Keywords: " ++ album_info.keywords ++ "\n" else "")

/-- `SmugMugDownloader.save_album_metadata`: the sidecar filename is the album
name (default `'album'`) with spaces replaced by underscores, sanitized, plus
`.txt`; no-op when the file exists or all three metadata fields are empty. -/
def save_album_metadata (album_info : AlbumInfo) (album_path : List String)
    (st : RunState) : RunState :=
  let album_name := album_info.name.getD "album"
  let metadata_filename :=
    sanitize_filename ((album_name.data.map (fun c => if c = ' ' then '_' else c)).asString)
      ++ ".txt"
  let metadata_path := album_path ++ [metadata_filename]
  if metadata_path ∈ fsPaths st.files then st
  else if album_info.name.getD "" = "" ∧ album_info.description = "" ∧
      album_info.keywords = "" then st
  else { st with files := fsWrite st.files metadata_path (album_sidecar_content album_info),
                 total_album_metadata_saved := st.total_album_metadata_saved + 1 }

/-- The quarantine path the resume-collision branch of `download_image`
redirects to: `dir / filename` when free, else the first
`dir / stem_2.ext`, `dir / stem_3.ext`, ... not yet on disk. -/
def quarantinePath (files : List (List String × String)) (dir : List String)
    (filename : String) : List String :=
  let p0 := dir ++ [filename]
  if p0 ∈ fsPaths files then
    let base_name := (pySplitExt filename).1
    let extension := (pySplitExt filename).2
    let taken := fsPaths files
    let counter := findFreeCounter taken
      (fun c => dir ++ [base_name ++ "_" ++ natStr c ++ extension]) (taken.length + 1) 2
    dir ++ [base_name ++ "_" ++ natStr counter ++ extension]
  else p0

/-- `SmugMugDownloader.download_image` (source lines 244-322).  The
resume-collision redirect into `Skipped_Images`, the URL-resolution oracle,
the transfer oracle, partial-file cleanup and the per-image statistics;
returns the updated state and the function's boolean result. -/
def download_image (image_info : ImageInfo) (download_path : List String)
    (album_name : String) (st : RunState) : RunState × Bool :=
  let filename := (download_path.getLast?).getD ""
  let original_download_path := download_path
  let redirected :=
    if original_download_path ∈ fsPaths st.files then
      let skipped_album_dir := "Skipped_Images" :: original_download_path.dropLast
      some (quarantinePath st.files skipped_album_dir filename)
    else none
  let st1 :=
    match redirected with
    | some p1 =>
        let image_key := if image_info.imageKey = "" then "no-key" else image_info.imageKey
        { st with total_skipped := st.total_skipped + 1,
                  skipped_log := st.skipped_log ++
                    [(filename, album_name, image_key, original_download_path, p1)] }
    | none => st
  let path1 := (redirected).getD original_download_path
  match image_info.urlResult with
  | none =>
      ({ st1 with failed_downloads := st1.failed_downloads ++
          [(filename, album_name,
            "No download URL found (no ImageSizeOriginal, ArchivedUri, LargestImage, or ImageDownload)")] },
       false)
  | some _ =>
    match image_info.transfer with
    | .success =>
        let st2 := { st1 with files := fsWrite st1.files path1 "" }
        let st3 := save_image_metadata image_info path1 st2
        ({ st3 with total_downloaded := st3.total_downloaded + 1 }, true)
    | .httpError status =>
        let reason := "HTTP " ++ natStr status ++ " error"
        let st2 := { st1 with failed_downloads := st1.failed_downloads ++
          [(filename, album_name, reason)] }
        ({ st2 with files :=
            if path1 ∈ fsPaths st2.files then fsUnlink st2.files path1 else st2.files },
         false)
    | .timeout wrotePart =>
        let reason := "Download timeout (>30s)"
        let filesMid := if wrotePart then fsWrite st1.files path1 "" else st1.files
        let st2 := { st1 with
          files := filesMid,
          failed_downloads := st1.failed_downloads ++ [(filename, album_name, reason)] }
        ({ st2 with files :=
            if path1 ∈ fsPaths st2.files then fsUnlink st2.files path1 else st2.files },
         false)
    | .otherError excName msg wrotePart =>
        let reason := excName ++ ": " ++ msg
        let filesMid := if wrotePart then fsWrite st1.files path1 "" else st1.files
        let st2 := { st1 with
          files := filesMid,
          failed_downloads := st1.failed_downloads ++ [(filename, album_name, reason)] }
        ({ st2 with files :=
            if path1 ∈ fsPaths st2.files then fsUnlink st2.files path1 else st2.files },
         false)

/-- The per-album download dispatch (source lines 408-423).  The source runs
the five-wide thread pool; the shared counters and logs are modelled by the
serialization of the downloads in plan order. -/
def download_images_loop (plan : List (ImageInfo × String)) (album_path : List String)
    (album_name : String) (st : RunState) : RunState :=
  plan.foldl (fun s e => (download_image e.1 (album_path ++ [e.2]) album_name s).1) st

/-- `SmugMugDownloader.fetch_images`: follow pagination until exhausted; a
non-200 page or an exception breaks the loop, returning what was accumulated
so far (the page oracles are consumed in request order). -/
def fetch_images : List PageResult → List ImageInfo
  | [] => []
  | .httpError _ :: _ => []
  | .exn _ :: _ => []
  | .ok images next :: rest =>
      match next with
      | none => images
      | some _ => images ++ fetch_images rest

/-- `SmugMugDownloader.process_album`: create the album directory, write the
album sidecar, fetch and plan the images, then download the plan.  The
source's interleaved mutation of the downloader statistics during the
planning loop is equivalent to merging the loop's accumulators afterwards,
since the loop's dictionaries start empty and the shared lists are
append-only. -/
def process_album (album : AlbumInfo) (folder_path : List String) (st : RunState) :
    RunState :=
  let album_name := album.name.getD "Unnamed Album"
  if album.uri = "" then st
  else
    let album_path := folder_path ++ [sanitize_filename album_name]
    let st1 := save_album_metadata album album_path st
    let images := fetch_images album.pages
    let st2 := { st1 with total_images := st1.total_images + images.length,
                          total_albums := st1.total_albums + 1 }
    if images = [] then st2
    else
      let ps := process_album_plan album_name images
      let st3 := { st2 with
        total_duplicates := st2.total_duplicates + ps.total_duplicates,
        duplicate_log := st2.duplicate_log ++ ps.duplicate_log,
        total_renamed := st2.total_renamed + ps.total_renamed,
        renamed_files := st2.renamed_files ++ ps.renamed_files }
      if ps.processed_images = [] then st3
      else download_images_loop ps.processed_images album_path album_name st3

/-- Outcome of one listing sub-fetch: a transport exception or a response
with its HTTP status and parsed payload. -/
inductive FetchOutcome (α : Type) where
  | exn (msg : String)
  | resp (status : Nat) (val : α)
deriving DecidableEq

/-- A remote folder node with the oracles for its two sub-fetches; `none`
models an absent/empty `FolderAlbums` or `Folders` URI (no request is made). -/
inductive FolderTree where
  | node (name : String)
         (albumsFetch : Option (FetchOutcome (List AlbumInfo)))
         (subsFetch : Option (FetchOutcome (List FolderTree)))

/-- Album loop of `process_folder` for one folder's album listing. -/
def process_albums_list (albums : List AlbumInfo) (folder_path : List String)
    (st : RunState) : RunState :=
  albums.foldl (fun s a => process_album a folder_path s) st

/-- The albums block of `process_folder`: process the folder's albums when
the albums fetch succeeded with HTTP 200; an exception or a non-200 status is
logged and skipped (no album processed). -/
def process_folder_albums (albumsFetch : Option (FetchOutcome (List AlbumInfo)))
    (folder_path : List String) (st : RunState) : RunState :=
  match albumsFetch with
  | none => st
  | some (.exn _) => st
  | some (.resp status albums) =>
      if status = 200 then process_albums_list albums folder_path st else st

mutual
/-- `SmugMugDownloader.process_folder`: count the folder, process its albums
when the albums fetch succeeds with HTTP 200 (an exception or a bad status is
logged and skipped), then recurse into the subfolders under the same rule. -/
def process_folder (folder : FolderTree) (parent_path : List String) (st : RunState) :
    RunState :=
  match folder with
  | .node folder_name albumsFetch subsFetch =>
    let folder_path := parent_path ++ [sanitize_filename folder_name]
    let st1 := { st with total_folders := st.total_folders + 1 }
    let st2 := process_folder_albums albumsFetch folder_path st1
    match subsFetch with
    | none => st2
    | some (.exn _) => st2
    | some (.resp status subs) =>
        if status = 200 then process_folder_list subs folder_path st2 else st2

/-- Sequential traversal of sibling folders, in API order. -/
def process_folder_list : List FolderTree → List String → RunState → RunState
  | [], _, st => st
  | f :: fs, p, st => process_folder_list fs p (process_folder f p st)
end

mutual
/-- Number of folders a traversal of this tree visits: the node itself plus,
when the subfolder fetch succeeds with HTTP 200, the visits of its children. -/
def visit_count : FolderTree → Nat
  | .node _ _ subsFetch =>
    1 + (match subsFetch with
         | some (.resp status subs) => if status = 200 then visit_count_list subs else 0
         | _ => 0)

/-- Total visits over a sibling list. -/
def visit_count_list : List FolderTree → Nat
  | [] => 0
  | f :: fs => visit_count f + visit_count_list fs
end

/-- Oracle for the one top-level request of `download_all`. -/
inductive RootFetch where
  | exn (msg : String)
  | resp (status : Nat) (folders : List FolderTree)

/-- `SmugMugDownloader.download_all`: fetch the root folder listing; a non-200
status logs an error and returns normally, while an exception anywhere in the
body reaches the `except` clause and calls `sys.exit(1)`.  The second
component is the forced exit status (`none` = normal return).  The terminal
summary and the four audit files written at the download root are elided
(reporting output; no claim concerns them). -/
def download_all (root : RootFetch) (st : RunState) : RunState × Option Nat :=
  match root with
  | .exn _ => (st, some 1)
  | .resp status folders =>
    if status ≠ 200 then (st, none)
    else (process_folder_list folders [] st, none)

/-- The all-zero, empty-filesystem initial run state. -/
def initRunState : RunState :=
  { files := [], total_downloaded := 0, total_skipped := 0, total_images := 0,
    total_albums := 0, total_folders := 0, total_metadata_saved := 0,
    total_album_metadata_saved := 0, total_duplicates := 0, total_renamed := 0,
    failed_downloads := [], duplicate_log := [], renamed_files := [], skipped_log := [] }

/-- Shorthand for building concrete image fixtures. -/
def mkImage (key uri : String) (fn : Option String) : ImageInfo :=
  { imageKey := key, uri := uri, fileName := fn, title := "", caption := "",
    keywords := "", urlResult := some "https://example/img", transfer := .success }

/-- Fixtures: scenario A (two images sharing `ImageKey = K1`). -/
def imgA1 : ImageInfo := mkImage "K1" "" (some "one.jpg")

/-- Second image of scenario A, same key, different filename. -/
def imgA2 : ImageInfo := mkImage "K1" "" (some "two.jpg")

/-- Fixtures: scenario B (`a.jpg` under key K1). -/
def imgB1 : ImageInfo := mkImage "K1" "" (some "a.jpg")

/-- Scenario B, second image: `a.jpg` under key K2. -/
def imgB2 : ImageInfo := mkImage "K2" "" (some "a.jpg")

/-- Third fixture for the name-squatting counterexample: a fresh key with
filename `a_2.jpg`, the very name the collision rename of scenario B takes. -/
def imgB3 : ImageInfo := mkImage "K3" "" (some "a_2.jpg")

/-- Album fixture whose name contains a space. -/
def albumC9 : AlbumInfo :=
  { name := some "My Album", description := "d", keywords := "", uri := "/album/1",
    pages := [] }

/-- Page oracle: a successful first page that announces a next page, followed
by an HTTP failure on that second request. -/
def pagesC7 : List PageResult :=
  [.ok [mkImage "K1" "" (some "a.jpg")] (some "/page2"), .httpError 500]

/-- A run state whose filesystem already holds the destination `A/a.jpg`. -/
def stPre : RunState := { initRunState with files := [(["A", "a.jpg"], "x")] }

/-- Image fixture whose URL resolution fails (no source available). -/
def imgNoUrl : ImageInfo := { mkImage "K9" "" (some "a.jpg") with urlResult := none }

/-- Image fixture whose transfer returns HTTP 500. -/
def imgHttp500 : ImageInfo :=
  { mkImage "K8" "" (some "a.jpg") with transfer := TransferResult.httpError 500 }

/-- A run state that already holds the sidecar `A/a.txt`. -/
def stSide : RunState := { initRunState with files := [(["A", "a.txt"], "old")] }

/- ------------------------------------------------------------------ -/
/- Lemmas about the decimal numeral function.                          -/
/- ------------------------------------------------------------------ -/

theorem digitsVal_append (l : List Char) (c : Char) :
    digitsVal (l ++ [c]) = 10 * digitsVal l + charVal c := by
  simp [digitsVal, List.foldl_append]

theorem charVal_digitChar : ∀ d : Nat, d < 10 → charVal (Nat.digitChar d) = d := by decide

theorem natDigitsAux_val : ∀ fuel n, n ≤ fuel → digitsVal (natDigitsAux fuel n) = n := by
  intro fuel
  induction fuel with
  | zero =>
      intro n h
      have : n = 0 := by omega
      subst this
      rfl
  | succ fuel ih =>
      intro n h
      by_cases h0 : n = 0
      · subst h0
        simp [natDigitsAux, digitsVal]
      · have hlt : n / 10 < n := Nat.div_lt_self (Nat.pos_of_ne_zero h0) (by omega)
        have hle : n / 10 ≤ fuel := by omega
        simp only [natDigitsAux, if_neg h0]
        rw [digitsVal_append, ih _ hle, charVal_digitChar _ (Nat.mod_lt _ (by omega))]
        omega

theorem natStr_val (n : Nat) : digitsVal (natStr n).data = n := by
  by_cases h : n = 0
  · subst h
    rfl
  · have hv := natDigitsAux_val n n le_rfl
    have hdata : ((natDigitsAux n n).asString).data = natDigitsAux n n := rfl
    simp only [natStr, if_neg h, hdata]
    exact hv

theorem natStr_injective : Function.Injective natStr := by
  intro a b h
  have ha := natStr_val a
  rw [h, natStr_val] at ha
  omega

/- ------------------------------------------------------------------ -/
/- Specification of the free-suffix search loops.                      -/
/- ------------------------------------------------------------------ -/

theorem findFreeCounter_go {α : Type} [DecidableEq α] (taken : List α) (mk : Nat → α) :
    ∀ fuel c, (∃ i, i < fuel ∧ mk (c + i) ∉ taken) →
      mk (findFreeCounter taken mk fuel c) ∉ taken ∧
      c ≤ findFreeCounter taken mk fuel c ∧
      ∀ k, c ≤ k → k < findFreeCounter taken mk fuel c → mk k ∈ taken := by
  intro fuel
  induction fuel with
  | zero =>
      intro c hex
      obtain ⟨i, hi, _⟩ := hex
      omega
  | succ fuel ih =>
      intro c hex
      obtain ⟨i, hi, hfree⟩ := hex
      by_cases hc : mk c ∈ taken
      · have hex2 : ∃ j, j < fuel ∧ mk (c + 1 + j) ∉ taken := by
          rcases Nat.eq_zero_or_pos i with h0 | hpos
          · subst h0
            exact absurd hc hfree
          · refine ⟨i - 1, by omega, ?_⟩
            have hh : c + 1 + (i - 1) = c + i := by omega
            rw [hh]
            exact hfree
        obtain ⟨h1, h2, h3⟩ := ih (c + 1) hex2
        have hres : findFreeCounter taken mk (fuel + 1) c =
            findFreeCounter taken mk fuel (c + 1) := by
          simp [findFreeCounter, hc]
        refine ⟨by rw [hres]; exact h1, by omega, ?_⟩
        intro k hk1 hk2
        rw [hres] at hk2
        by_cases hkc : k = c
        · subst hkc
          exact hc
        · exact h3 k (by omega) hk2
      · have hres : findFreeCounter taken mk (fuel + 1) c = c := by
          simp [findFreeCounter, hc]
        rw [hres]
        exact ⟨hc, le_rfl, fun k hk1 hk2 => absurd hk2 (by omega)⟩

theorem findFreeCounter_exists {α : Type} [DecidableEq α] (taken : List α) (mk : Nat → α)
    (hinj : Function.Injective mk) (c : Nat) :
    ∃ i, i < taken.length + 1 ∧ mk (c + i) ∉ taken := by
  by_contra hcon
  push_neg at hcon
  set L := (List.range (taken.length + 1)).map (fun i => mk (c + i)) with hL
  have hsub : L ⊆ taken := by
    intro x hx
    rw [hL, List.mem_map] at hx
    obtain ⟨i, hi, rfl⟩ := hx
    exact hcon i (List.mem_range.1 hi)
  have hnodup : L.Nodup := by
    refine List.Nodup.map ?_ (List.nodup_range _)
    intro a b hab
    have := hinj hab
    omega
  have h1 : L.toFinset.card = taken.length + 1 := by
    rw [List.toFinset_card_of_nodup hnodup, hL]
    simp
  have h2 : L.toFinset ⊆ taken.toFinset := fun x hx =>
    List.mem_toFinset.2 (hsub (List.mem_toFinset.1 hx))
  have h3 := Finset.card_le_card h2
  have h4 := taken.toFinset_card_le
  omega

theorem findFreeCounter_spec {α : Type} [DecidableEq α] (taken : List α) (mk : Nat → α)
    (hinj : Function.Injective mk) :
    mk (findFreeCounter taken mk (taken.length + 1) 2) ∉ taken ∧
    2 ≤ findFreeCounter taken mk (taken.length + 1) 2 ∧
    ∀ k, 2 ≤ k → k < findFreeCounter taken mk (taken.length + 1) 2 → mk k ∈ taken :=
  findFreeCounter_go taken mk (taken.length + 1) 2 (findFreeCounter_exists taken mk hinj 2)

theorem suffixName_injective (stem ext : String) :
    Function.Injective (fun c => stem ++ "_" ++ natStr c ++ ext) := by
  intro a b h
  have hd : stem.data ++ ("_".data ++ ((natStr a).data ++ ext.data)) =
      stem.data ++ ("_".data ++ ((natStr b).data ++ ext.data)) := by
    have := congrArg String.data h
    simpa [String.data_append, List.append_assoc] using this
  have h1 : (natStr a).data = (natStr b).data :=
    List.append_cancel_right (List.append_cancel_left (List.append_cancel_left hd))
  have ha := natStr_val a
  rw [h1, natStr_val] at ha
  omega

theorem suffixPath_injective (dir : List String) (stem ext : String) :
    Function.Injective (fun c => dir ++ [stem ++ "_" ++ natStr c ++ ext]) := by
  intro a b h
  have h1 := List.append_cancel_left h
  simp only [List.cons.injEq, and_true] at h1
  exact suffixName_injective stem ext h1

theorem dictContains_iff (d : List (String × String)) (k : String) :
    dictContains d k = true ↔ k ∈ d.map Prod.fst := by
  simp [dictContains, List.any_eq_true, List.mem_map]

theorem collisionFinal_spec (orig : String) (used : List (String × String)) :
    ∃ c, 2 ≤ c ∧
      collisionFinal orig used =
        (pySplitExt orig).1 ++ "_" ++ natStr c ++ (pySplitExt orig).2 ∧
      collisionFinal orig used ∉ used.map Prod.fst ∧
      ∀ k, 2 ≤ k → k < c →
        (pySplitExt orig).1 ++ "_" ++ natStr k ++ (pySplitExt orig).2 ∈
          used.map Prod.fst := by
  obtain ⟨h1, h2, h3⟩ := findFreeCounter_spec (used.map Prod.fst)
    (fun c => (pySplitExt orig).1 ++ "_" ++ natStr c ++ (pySplitExt orig).2)
    (suffixName_injective _ _)
  exact ⟨_, h2, rfl, h1, h3⟩

theorem collisionFinal_not_mem (orig : String) (used : List (String × String)) :
    collisionFinal orig used ∉ used.map Prod.fst := by
  obtain ⟨c, _, _, h, _⟩ := collisionFinal_spec orig used
  exact h

theorem quarantinePath_spec (files : List (List String × String)) (dir : List String)
    (filename : String) :
    quarantinePath files dir filename ∉ fsPaths files ∧
    (∃ nm, quarantinePath files dir filename = dir ++ [nm]) ∧
    (dir ++ [filename] ∉ fsPaths files →
      quarantinePath files dir filename = dir ++ [filename]) ∧
    (dir ++ [filename] ∈ fsPaths files → ∃ c, 2 ≤ c ∧
      quarantinePath files dir filename =
        dir ++ [(pySplitExt filename).1 ++ "_" ++ natStr c ++ (pySplitExt filename).2] ∧
      ∀ k, 2 ≤ k → k < c →
        dir ++ [(pySplitExt filename).1 ++ "_" ++ natStr k ++ (pySplitExt filename).2] ∈
          fsPaths files) := by
  by_cases h0 : dir ++ [filename] ∈ fsPaths files
  · obtain ⟨h1, h2, h3⟩ := findFreeCounter_spec (fsPaths files)
      (fun c => dir ++ [(pySplitExt filename).1 ++ "_" ++ natStr c ++ (pySplitExt filename).2])
      (suffixPath_injective _ _ _)
    have hq : quarantinePath files dir filename =
        dir ++ [(pySplitExt filename).1 ++ "_" ++
          natStr (findFreeCounter (fsPaths files)
            (fun c => dir ++ [(pySplitExt filename).1 ++ "_" ++ natStr c ++
              (pySplitExt filename).2]) ((fsPaths files).length + 1) 2) ++
          (pySplitExt filename).2] := by
      simp only [quarantinePath, if_pos h0]
    refine ⟨by rw [hq]; exact h1, ⟨_, hq⟩, fun hc => absurd h0 hc, fun _ => ⟨_, h2, hq, h3⟩⟩
  · have hq : quarantinePath files dir filename = dir ++ [filename] := by
      simp only [quarantinePath, if_neg h0]
    exact ⟨by rw [hq]; exact h0, ⟨_, hq⟩, fun _ => hq, fun hc => absurd hc h0⟩

theorem planAux_append (album : String) (xs : List ImageInfo) (x : ImageInfo) :
    ∀ (idx : Nat) (s : PlanState),
    planAux album idx (xs ++ [x]) s =
      planStep album (idx + xs.length) x (planAux album idx xs s) := by
  induction xs with
  | nil => intro idx s; simp [planAux]
  | cons y ys ih =>
      intro idx s
      have h1 : planAux album idx ((y :: ys) ++ [x]) s =
          planAux album (idx + 1) (ys ++ [x]) (planStep album idx y s) := rfl
      have h2 : planAux album idx (y :: ys) s =
          planAux album (idx + 1) ys (planStep album idx y s) := rfl
      have harith : idx + 1 + ys.length = idx + (y :: ys).length := by
        simp only [List.length_cons]
        omega
      rw [h1, ih, h2, harith]

theorem albumUids_append (xs : List ImageInfo) (x : ImageInfo) :
    albumUids (xs ++ [x]) = albumUids xs ++ [uniqueId xs.length x] := by
  simp [albumUids, List.enum_append, List.enumFrom]

theorem dictContains_false_iff (d : List (String × String)) (k : String) :
    dictContains d k = false ↔ k ∉ d.map Prod.fst := by
  rw [← dictContains_iff]
  cases dictContains d k <;> simp

theorem planStep_dup (album : String) (idx : Nat) (x : ImageInfo) (s : PlanState)
    (h : dictContains s.seen_image_keys (uniqueId idx x) = true) :
    planStep album idx x s = { s with
      total_duplicates := s.total_duplicates + 1,
      duplicate_log := s.duplicate_log ++ [(uniqueId idx x, originalFilename idx x, album,
        "True duplicate (ID=" ++ uniqueId idx x ++ ", already seen as " ++
          dictGet s.seen_image_keys (uniqueId idx x) ++ ")")] } := by
  simp only [planStep, h, if_true]

theorem planStep_fresh (album : String) (idx : Nat) (x : ImageInfo) (s : PlanState)
    (h1 : dictContains s.seen_image_keys (uniqueId idx x) = false)
    (h2 : dictContains s.used_filenames (originalFilename idx x) = false) :
    planStep album idx x s = { s with
      seen_image_keys := (uniqueId idx x, originalFilename idx x) :: s.seen_image_keys,
      used_filenames := (originalFilename idx x, uniqueId idx x) :: s.used_filenames,
      processed_images := s.processed_images ++ [(x, originalFilename idx x)] } := by
  simp only [planStep, h1, h2, Bool.false_eq_true, if_false]

theorem planStep_collision (album : String) (idx : Nat) (x : ImageInfo) (s : PlanState)
    (h1 : dictContains s.seen_image_keys (uniqueId idx x) = false)
    (h2 : dictContains s.used_filenames (originalFilename idx x) = true) :
    planStep album idx x s = { s with
      total_renamed := s.total_renamed + 1,
      renamed_files := s.renamed_files ++ [(originalFilename idx x,
        collisionFinal (originalFilename idx x) s.used_filenames, album)],
      seen_image_keys := (uniqueId idx x, originalFilename idx x) :: s.seen_image_keys,
      used_filenames := (collisionFinal (originalFilename idx x) s.used_filenames,
        uniqueId idx x) :: s.used_filenames,
      processed_images := s.processed_images ++
        [(x, collisionFinal (originalFilename idx x) s.used_filenames)] } := by
  simp only [planStep, h1, h2, Bool.false_eq_true, if_false, if_true]

theorem plan_invariant (album : String) (images : List ImageInfo) :
    ((process_album_plan album images).used_filenames.map Prod.fst) =
      ((process_album_plan album images).processed_images.map Prod.snd).reverse ∧
    ((process_album_plan album images).processed_images.map Prod.snd).Nodup ∧
    ((process_album_plan album images).seen_image_keys.map Prod.fst).Nodup ∧
    (∀ k, k ∈ (process_album_plan album images).seen_image_keys.map Prod.fst ↔
      k ∈ albumUids images) ∧
    (process_album_plan album images).processed_images.length =
      (process_album_plan album images).seen_image_keys.length ∧
    (process_album_plan album images).processed_images.length +
      (process_album_plan album images).duplicate_log.length = images.length ∧
    (process_album_plan album images).total_duplicates =
      (process_album_plan album images).duplicate_log.length ∧
    (process_album_plan album images).total_renamed =
      (process_album_plan album images).renamed_files.length := by
  induction images using List.reverseRecOn with
  | nil => simp [process_album_plan, planAux, initPlanState, albumUids]
  | append_singleton xs x ih =>
    obtain ⟨hA, hN, hSN, hSmem, hlen, hcnt, hdupc, hren⟩ := ih
    have hsnoc : process_album_plan album (xs ++ [x]) =
        planStep album xs.length x (process_album_plan album xs) := by
      have h := planAux_append album xs x 0 initPlanState
      simpa [process_album_plan] using h
    set s := process_album_plan album xs with hs
    rw [hsnoc]
    by_cases hd : dictContains s.seen_image_keys (uniqueId xs.length x) = true
    · rw [planStep_dup album xs.length x s hd]
      refine ⟨hA, hN, hSN, ?_, hlen, ?_, ?_, hren⟩
      · intro k
        have huid : uniqueId xs.length x ∈ albumUids xs := by
          rw [← hSmem]
          exact (dictContains_iff _ _).1 hd
        simp only [albumUids_append, List.mem_append, List.mem_singleton, hSmem k]
        constructor
        · exact Or.inl
        · rintro (hk | rfl)
          · exact hk
          · exact huid
      · simp only [List.length_append, List.length_cons, List.length_singleton, List.length_nil]
        omega
      · simp only [List.length_append, List.length_cons, List.length_singleton, List.length_nil]
        omega
    · have hd' : dictContains s.seen_image_keys (uniqueId xs.length x) = false := by
        simpa using hd
      have huidnew : uniqueId xs.length x ∉ s.seen_image_keys.map Prod.fst :=
        (dictContains_false_iff _ _).1 hd'
      by_cases hc : dictContains s.used_filenames (originalFilename xs.length x) = true
      · rw [planStep_collision album xs.length x s hd' hc]
        have hfnotin : collisionFinal (originalFilename xs.length x) s.used_filenames ∉
            s.processed_images.map Prod.snd := by
          have h := collisionFinal_not_mem (originalFilename xs.length x) s.used_filenames
          rw [hA] at h
          simpa using h
        refine ⟨?_, ?_, ?_, ?_, ?_, ?_, hdupc, ?_⟩
        · simp only [List.map_cons, List.map_append, List.map_cons, List.map_nil,
            List.reverse_append, List.reverse_singleton]
          rw [hA]
          simp
        · simp only [List.map_append, List.map_cons, List.map_nil]
          rw [List.nodup_append]
          exact ⟨hN, List.nodup_singleton _, by simpa using hfnotin⟩
        · simp only [List.map_cons]
          rw [List.nodup_cons]
          exact ⟨huidnew, hSN⟩
        · intro k
          simp only [List.map_cons, List.mem_cons, albumUids_append, List.mem_append,
            List.mem_singleton, hSmem k]
          tauto
        · simp only [List.length_append, List.length_cons, List.length_singleton, List.length_nil]
          omega
        · simp only [List.length_append, List.length_cons, List.length_singleton, List.length_nil]
          omega
        · simp only [List.length_append, List.length_cons, List.length_singleton, List.length_nil]
          omega
      · have hc' : dictContains s.used_filenames (originalFilename xs.length x) = false := by
          simpa using hc
        rw [planStep_fresh album xs.length x s hd' hc']
        have hfnotin : originalFilename xs.length x ∉ s.processed_images.map Prod.snd := by
          have h := (dictContains_false_iff _ _).1 hc'
          rw [hA] at h
          simpa using h
        refine ⟨?_, ?_, ?_, ?_, ?_, ?_, hdupc, hren⟩
        · simp only [List.map_cons, List.map_append, List.map_cons, List.map_nil,
            List.reverse_append, List.reverse_singleton]
          rw [hA]
          simp
        · simp only [List.map_append, List.map_cons, List.map_nil]
          rw [List.nodup_append]
          exact ⟨hN, List.nodup_singleton _, by simpa using hfnotin⟩
        · simp only [List.map_cons]
          rw [List.nodup_cons]
          exact ⟨huidnew, hSN⟩
        · intro k
          simp only [List.map_cons, List.mem_cons, albumUids_append, List.mem_append,
            List.mem_singleton, hSmem k]
          tauto
        · simp only [List.length_append, List.length_cons, List.length_singleton, List.length_nil]
          omega
        · simp only [List.length_append, List.length_cons, List.length_singleton, List.length_nil]
          omega

theorem plan_length_eq_dedup (album : String) (images : List ImageInfo) :
    (process_album_plan album images).processed_images.length =
      (albumUids images).dedup.length := by
  obtain ⟨hA, hN, hSN, hSmem, hlen, hcnt, hdupc, hren⟩ := plan_invariant album images
  have hfin : ((process_album_plan album images).seen_image_keys.map Prod.fst).toFinset =
      (albumUids images).toFinset := by
    ext k
    simp only [List.mem_toFinset]
    exact hSmem k
  have h1 := List.toFinset_card_of_nodup hSN
  rw [hfin, List.card_toFinset] at h1
  have h2 : ((process_album_plan album images).seen_image_keys.map Prod.fst).length =
      (process_album_plan album images).seen_image_keys.length := List.length_map _ _
  omega

/-- C1: for every image sequence fed to the per-album planning loop, the plan
`processed_images` has pairwise-distinct final destination filenames. -/
theorem C1_plan_filenames_nodup (album : String) (images : List ImageInfo) :
    ((process_album_plan album images).processed_images.map Prod.snd).Nodup :=
  (plan_invariant album images).2.1

/-- C2: true-duplicate detection is identity-based: the plan has exactly one
entry per distinct identity key (so records sharing a key collapse to one
entry regardless of filenames), every later occurrence contributes exactly
one duplicate event (entries plus duplicate events account for the whole
input, and the duplicate count is the number of non-first occurrences), and
an album of two images sharing `ImageKey = K1` yields a plan of one entry
with one recorded duplicate event. -/
theorem C2_identity_based_dedup :
    (∀ (album : String) (images : List ImageInfo),
      (process_album_plan album images).processed_images.length =
        (albumUids images).dedup.length ∧
      (process_album_plan album images).processed_images.length +
        (process_album_plan album images).duplicate_log.length = images.length ∧
      (process_album_plan album images).duplicate_log.length =
        images.length - (albumUids images).dedup.length ∧
      (process_album_plan album images).total_duplicates =
        (process_album_plan album images).duplicate_log.length) ∧
    (process_album_plan "A" [imgA1, imgA2]).processed_images.length = 1 ∧
    (process_album_plan "A" [imgA1, imgA2]).duplicate_log.length = 1 ∧
    (process_album_plan "A" [imgA1, imgA2]).total_duplicates = 1 := by
  refine ⟨?_, by decide, by decide, by decide⟩
  intro album images
  obtain ⟨hA, hN, hSN, hSmem, hlen, hcnt, hdupc, hren⟩ := plan_invariant album images
  have hd := plan_length_eq_dedup album images
  exact ⟨hd, hcnt, by omega, hdupc⟩

/-- C3 counterexample: in the album `a.jpg (K1)`, `a.jpg (K2)`, `a_2.jpg (K3)`
the third image is the first and only occurrence of the filename `a_2.jpg`,
yet its plan entry is renamed to `a_2_2.jpg` (the collision rename of the
second image already claimed `a_2.jpg`), so the claim that the first
occurrence of any filename always keeps its original name is false. -/
theorem C3_counterexample :
    originalFilename 0 imgB1 = "a.jpg" ∧
    originalFilename 1 imgB2 = "a.jpg" ∧
    originalFilename 2 imgB3 = "a_2.jpg" ∧
    (process_album_plan "B" [imgB1, imgB2, imgB3]).processed_images.map Prod.snd =
      ["a.jpg", "a_2.jpg", "a_2_2.jpg"] ∧
    (process_album_plan "B" [imgB1, imgB2, imgB3]).renamed_files =
      [("a.jpg", "a_2.jpg", "B"), ("a_2.jpg", "a_2_2.jpg", "B")] := by
  decide

/-- C3 amended: collision renaming affects exactly those images whose
candidate filename is already taken by an earlier plan entry's final name
(an earlier original name or a name introduced by an earlier collision
rename).  An image with a fresh identity key whose filename is not yet among
the earlier final names keeps its original name and records no rename event;
one whose filename is taken receives the first `_2`, `_3`, ... suffix on its
stem that is unused among the earlier final names, plus exactly one rename
event.  In particular `a.jpg (K1)` then `a.jpg (K2)` yields two entries, the
second named `a_2.jpg`, with one rename event. -/
theorem C3_amended_collision_renaming :
    (∀ (album : String) (xs : List ImageInfo) (x : ImageInfo),
      uniqueId xs.length x ∉ albumUids xs →
      ((originalFilename xs.length x ∉
          ((process_album_plan album xs).processed_images.map Prod.snd) →
        (process_album_plan album (xs ++ [x])).processed_images =
          (process_album_plan album xs).processed_images ++
            [(x, originalFilename xs.length x)] ∧
        (process_album_plan album (xs ++ [x])).renamed_files =
          (process_album_plan album xs).renamed_files ∧
        (process_album_plan album (xs ++ [x])).total_renamed =
          (process_album_plan album xs).total_renamed) ∧
       (originalFilename xs.length x ∈
          ((process_album_plan album xs).processed_images.map Prod.snd) →
        ∃ c, 2 ≤ c ∧
          ((pySplitExt (originalFilename xs.length x)).1 ++ "_" ++ natStr c ++
              (pySplitExt (originalFilename xs.length x)).2) ∉
            ((process_album_plan album xs).processed_images.map Prod.snd) ∧
          (∀ k, 2 ≤ k → k < c →
            ((pySplitExt (originalFilename xs.length x)).1 ++ "_" ++ natStr k ++
                (pySplitExt (originalFilename xs.length x)).2) ∈
              ((process_album_plan album xs).processed_images.map Prod.snd)) ∧
          (process_album_plan album (xs ++ [x])).processed_images =
            (process_album_plan album xs).processed_images ++
              [(x, (pySplitExt (originalFilename xs.length x)).1 ++ "_" ++ natStr c ++
                (pySplitExt (originalFilename xs.length x)).2)] ∧
          (process_album_plan album (xs ++ [x])).renamed_files =
            (process_album_plan album xs).renamed_files ++
              [(originalFilename xs.length x,
                (pySplitExt (originalFilename xs.length x)).1 ++ "_" ++ natStr c ++
                  (pySplitExt (originalFilename xs.length x)).2, album)] ∧
          (process_album_plan album (xs ++ [x])).total_renamed =
            (process_album_plan album xs).total_renamed + 1))) ∧
    (process_album_plan "B" [imgB1, imgB2]).processed_images.map Prod.snd =
      ["a.jpg", "a_2.jpg"] ∧
    (process_album_plan "B" [imgB1, imgB2]).renamed_files = [("a.jpg", "a_2.jpg", "B")] ∧
    (process_album_plan "B" [imgB1, imgB2]).total_renamed = 1 := by
  refine ⟨?_, by decide, by decide, by decide⟩
  intro album xs x huid
  obtain ⟨hA, hN, hSN, hSmem, hlen, hcnt, hdupc, hren⟩ := plan_invariant album xs
  have hsnoc : process_album_plan album (xs ++ [x]) =
      planStep album xs.length x (process_album_plan album xs) := by
    have h := planAux_append album xs x 0 initPlanState
    simpa [process_album_plan] using h
  set s := process_album_plan album xs with hs
  have hd' : dictContains s.seen_image_keys (uniqueId xs.length x) = false :=
    (dictContains_false_iff _ _).2 (fun hm => huid ((hSmem _).1 hm))
  constructor
  · intro hfresh
    have hc' : dictContains s.used_filenames (originalFilename xs.length x) = false := by
      rw [dictContains_false_iff, hA, List.mem_reverse]
      exact hfresh
    rw [hsnoc, planStep_fresh album xs.length x s hd' hc']
    exact ⟨rfl, rfl, rfl⟩
  · intro htaken
    have hc : dictContains s.used_filenames (originalFilename xs.length x) = true := by
      rw [dictContains_iff, hA, List.mem_reverse]
      exact htaken
    rw [hsnoc, planStep_collision album xs.length x s hd' hc]
    obtain ⟨c, hc2, hform, hnotmem, hbelow⟩ :=
      collisionFinal_spec (originalFilename xs.length x) s.used_filenames
    refine ⟨c, hc2, ?_, ?_, ?_, ?_, ?_⟩
    · rw [← hform]
      intro hmem
      apply hnotmem
      rw [hA, List.mem_reverse]
      exact hmem
    · intro k hk2 hkc
      have := hbelow k hk2 hkc
      rw [hA, List.mem_reverse] at this
      exact this
    · rw [← hform]
    · rw [← hform]
    · rfl

/-- Witness for the amended C3 theorem at scenario B: appending `a.jpg (K2)`
to the already-planned `[a.jpg (K1)]` records exactly one more rename. -/
theorem C3_amended_witness :
    (process_album_plan "B" ([imgB1] ++ [imgB2])).total_renamed =
      (process_album_plan "B" [imgB1]).total_renamed + 1 := by
  have h := (C3_amended_collision_renaming.1 "B" [imgB1] imgB2 (by decide)).2 (by decide)
  obtain ⟨c, hc2, hnot, hlt, hplan, hrenl, htot⟩ := h
  exact htot

theorem dropWhile_eq_self_of_head {α : Type} (P : α → Bool) (l : List α)
    (h : ∀ a, l.head? = some a → P a = false) : l.dropWhile P = l := by
  cases l with
  | nil => rfl
  | cons a as =>
      have ha := h a rfl
      simp [List.dropWhile_cons, ha]

theorem take_head? {α : Type} (n : Nat) (l : List α) (h : l.take n ≠ []) :
    (l.take n).head? = l.head? := by
  cases n with
  | zero => simp at h
  | succ k =>
      cases l with
      | nil => simp at h
      | cons a as => simp [List.take_succ_cons]

theorem replaced_no_invalid (name : String) :
    ∀ c ∈ name.data.map (fun c => if c ∈ invalid_chars then '_' else c),
      c ∉ invalid_chars := by
  intro c hc
  rw [List.mem_map] at hc
  obtain ⟨a, _, rfl⟩ := hc
  by_cases ha : a ∈ invalid_chars
  · simp only [if_pos ha]
    decide
  · simp only [if_neg ha]
    exact ha

theorem sanitize_cases (name : String) :
    sanitize_filename name = "unnamed" ∨
    (∃ t : List Char, sanitize_filename name = t.asString ∧ t ≠ [] ∧
      t.length ≤ 200 ∧
      (∀ c ∈ t, c ∉ invalid_chars) ∧
      (∀ a, t.head? = some a → ¬(a = '.' ∨ a = ' '))) := by
  simp only [sanitize_filename]
  set r := name.data.map (fun c => if c ∈ invalid_chars then '_' else c) with hr
  set s1 := r.dropWhile (fun c => decide (c = '.' ∨ c = ' ')) with hs1
  set s2 := (s1.reverse.dropWhile (fun c => decide (c = '.' ∨ c = ' '))).reverse with hs2
  set t := if 200 < s2.length then s2.take 200 else s2 with ht
  by_cases hnil : t = []
  · left
    rw [if_pos hnil]
  · right
    refine ⟨t, by rw [if_neg hnil], hnil, ?_, ?_, ?_⟩
    · rw [ht]
      by_cases hlen : 200 < s2.length
      · rw [if_pos hlen, List.length_take]
        omega
      · rw [if_neg hlen]
        omega
    · intro c hc
      have hc2 : c ∈ s2 := by
        rw [ht] at hc
        by_cases hlen : 200 < s2.length
        · rw [if_pos hlen] at hc
          exact List.take_subset _ _ hc
        · rw [if_neg hlen] at hc
          exact hc
      have hc1 : c ∈ s1 := by
        rw [hs2, List.mem_reverse] at hc2
        have := List.dropWhile_subset (l := s1.reverse)
          (p := fun c => decide (c = '.' ∨ c = ' ')) hc2
        rw [List.mem_reverse] at this
        exact this
      have hcr : c ∈ r := List.dropWhile_subset _ hc1
      exact replaced_no_invalid name c hcr
    · intro a hha
      have hs2ne : s2 ≠ [] := by
        intro hcon
        rw [ht, hcon] at hnil
        simp at hnil
      have hts2 : t.head? = s2.head? := by
        rw [ht]
        by_cases hlen : 200 < s2.length
        · rw [if_pos hlen]
          exact take_head? 200 s2 (by rw [ht, if_pos hlen] at hnil; exact hnil)
        · rw [if_neg hlen]
      have hsplit : s1 = s2 ++ (s1.reverse.takeWhile
          (fun c => decide (c = '.' ∨ c = ' '))).reverse := by
        rw [hs2, ← List.reverse_append, List.takeWhile_append_dropWhile, List.reverse_reverse]
      have hs1h : s1.head? = s2.head? := by
        rw [hsplit, List.head?_append]
        cases hx : s2.head? with
        | none => simp [List.head?_eq_none_iff] at hx; exact absurd hx hs2ne
        | some b => simp
      have hfin : s1.head? = some a := by
        rw [hs1h, ← hts2, hha]
      have hp := List.head?_dropWhile_not
        (fun c => decide (c = '.' ∨ c = ' ')) r
      rw [← hs1] at hp
      rw [hfin] at hp
      simpa using hp

set_option maxRecDepth 10000 in
/-- C5 counterexample: `sanitize_filename` is not idempotent — on 199 `a`s
followed by `.b` the 200-character truncation exposes a trailing dot that a
second sanitization strips — and an input consisting solely of reserved
characters yields `"_"`, not the `'unnamed'` placeholder. -/
theorem C5_counterexample :
    sanitize_filename (sanitize_filename sanitizeCexInput) ≠
      sanitize_filename sanitizeCexInput ∧
    sanitize_filename "*" ≠ "unnamed" := by
  constructor
  · decide
  · decide

/-- C5 amended: the output of `sanitize_filename` never contains a reserved
character and has length at most 200; the empty input, and more generally any
input consisting solely of dots and spaces, yields the `'unnamed'`
placeholder (an input of reserved characters instead yields underscores); and
sanitization is idempotent on every input whose sanitized form does not end
in a dot or space — the only exception, which the 200-character truncation
can create. -/
theorem C5_amended_sanitize :
    (∀ x : String, ∀ c ∈ (sanitize_filename x).data, c ∉ invalid_chars) ∧
    (∀ x : String, (sanitize_filename x).data.length ≤ 200) ∧
    sanitize_filename "" = "unnamed" ∧
    (∀ x : String, (∀ c ∈ x.data, c = '.' ∨ c = ' ') →
      sanitize_filename x = "unnamed") ∧
    (∀ x : String,
      (sanitize_filename x).data.getLast? ≠ some '.' →
      (sanitize_filename x).data.getLast? ≠ some ' ' →
      sanitize_filename (sanitize_filename x) = sanitize_filename x) := by
  refine ⟨?_, ?_, by decide, ?_, ?_⟩
  · intro x c hc
    rcases sanitize_cases x with h | ⟨t, ht, htne, htlen, htinv, hthead⟩
    · rw [h] at hc
      have hu : ∀ a ∈ ("unnamed" : String).data, a ∉ invalid_chars := by decide
      exact hu c hc
    · rw [ht] at hc
      exact htinv c hc
  · intro x
    rcases sanitize_cases x with h | ⟨t, ht, htne, htlen, htinv, hthead⟩
    · rw [h]
      decide
    · rw [ht]
      exact htlen
  · intro x hx
    have hrepl : x.data.map (fun c => if c ∈ invalid_chars then '_' else c) = x.data := by
      conv_rhs => rw [← List.map_id x.data]
      apply List.map_congr_left
      intro a ha
      have := hx a ha
      rcases this with rfl | rfl <;> decide
    have hdrop : x.data.dropWhile (fun c => decide (c = '.' ∨ c = ' ')) = [] := by
      rw [List.dropWhile_eq_nil_iff]
      intro a ha
      simpa using hx a ha
    simp only [sanitize_filename, hrepl, hdrop]
    simp
  · intro x h1 h2
    rcases sanitize_cases x with h | ⟨t, ht, htne, htlen, htinv, hthead⟩
    · rw [h]
      decide
    · rw [ht] at h1 h2 ⊢
      have hdata : (t.asString).data = t := rfl
      have hrepl : t.map (fun c => if c ∈ invalid_chars then '_' else c) = t := by
        conv_rhs => rw [← List.map_id t]
        apply List.map_congr_left
        intro a ha
        rw [if_neg (htinv a ha)]
        rfl
      have hdrop1 : t.dropWhile (fun c => decide (c = '.' ∨ c = ' ')) = t := by
        apply dropWhile_eq_self_of_head
        intro a ha
        simpa using hthead a ha
      have hdrop2 : t.reverse.dropWhile (fun c => decide (c = '.' ∨ c = ' ')) =
          t.reverse := by
        apply dropWhile_eq_self_of_head
        intro a ha
        rw [List.head?_reverse] at ha
        rw [hdata] at h1 h2
        rw [ha] at h1 h2
        simp only [ne_eq, Option.some.injEq] at h1 h2
        simp [h1, h2]
      have hnotlong : ¬ (200 < t.length) := by omega
      simp only [sanitize_filename, hdata, hrepl, hdrop1, hdrop2, List.reverse_reverse,
        if_neg hnotlong, if_neg htne]

/-- Witness for the amended C5 theorem: `photo.jpg` sanitizes to itself and
the idempotence clause applies to it. -/
theorem C5_amended_witness :
    (sanitize_filename "photo.jpg").data.getLast? ≠ some '.' ∧
    (sanitize_filename "photo.jpg").data.getLast? ≠ some ' ' ∧
    sanitize_filename (sanitize_filename "photo.jpg") = sanitize_filename "photo.jpg" := by
  refine ⟨by decide, by decide, ?_⟩
  exact C5_amended_sanitize.2.2.2.2 "photo.jpg" (by decide) (by decide)

theorem fsPaths_write (files : List (List String × String)) (p : List String) (c : String)
    (q : List String) :
    q ∈ fsPaths (fsWrite files p c) ↔ q = p ∨ q ∈ fsPaths files := by
  by_cases hq : q = p
  · subst hq
    simp [fsPaths, fsWrite]
  · simp only [fsPaths, fsWrite, List.map_cons, List.mem_cons, hq, false_or]
    simp only [List.mem_map, List.mem_filter]
    constructor
    · intro h
      obtain ⟨e, he2, hfst⟩ := h
      exact ⟨e, he2.1, hfst⟩
    · intro h
      obtain ⟨e, he, hfst⟩ := h
      exact ⟨e, ⟨he, by simp [hfst, hq]⟩, hfst⟩

theorem fsPaths_unlink (files : List (List String × String)) (p : List String)
    (q : List String) :
    q ∈ fsPaths (fsUnlink files p) ↔ q ≠ p ∧ q ∈ fsPaths files := by
  simp only [fsPaths, fsUnlink, List.mem_map, List.mem_filter]
  constructor
  · rintro ⟨e, ⟨he, hne⟩, hfst⟩
    rw [← hfst]
    exact ⟨by simpa using hne, ⟨e, he, rfl⟩⟩
  · intro h
    obtain ⟨hne, hmem⟩ := h
    obtain ⟨e, he, hfst⟩ := hmem
    exact ⟨e, ⟨he, by simp [hfst, hne]⟩, hfst⟩

theorem save_image_metadata_preserves (image_info : ImageInfo) (p : List String)
    (s : RunState) :
    (save_image_metadata image_info p s).skipped_log = s.skipped_log ∧
    (save_image_metadata image_info p s).failed_downloads = s.failed_downloads ∧
    (save_image_metadata image_info p s).total_skipped = s.total_skipped ∧
    (save_image_metadata image_info p s).total_folders = s.total_folders := by
  simp only [save_image_metadata]
  split
  · exact ⟨rfl, rfl, rfl, rfl⟩
  · split
    · exact ⟨rfl, rfl, rfl, rfl⟩
    · exact ⟨rfl, rfl, rfl, rfl⟩

theorem save_image_metadata_files (image_info : ImageInfo) (p : List String)
    (s : RunState) :
    (save_image_metadata image_info p s).files = s.files ∨
    (save_image_metadata image_info p s).files =
      fsWrite s.files (p.dropLast ++ [(pySplitExt ((p.getLast?).getD "")).1 ++ ".txt"])
        (image_sidecar_content image_info) := by
  simp only [save_image_metadata]
  split
  · exact Or.inl rfl
  · split
    · exact Or.inl rfl
    · exact Or.inr rfl

theorem download_image_exists_case (image_info : ImageInfo) (dp : List String)
    (album : String) (st : RunState) (hex : dp ∈ fsPaths st.files) :
    (download_image image_info dp album st).1.skipped_log =
      st.skipped_log ++ [((dp.getLast?).getD "", album,
        (if image_info.imageKey = "" then "no-key" else image_info.imageKey), dp,
        quarantinePath st.files ("Skipped_Images" :: dp.dropLast)
          ((dp.getLast?).getD ""))] ∧
    (download_image image_info dp album st).1.total_skipped = st.total_skipped + 1 ∧
    (∀ r, r ∈ fsPaths st.files →
      r ∈ fsPaths (download_image image_info dp album st).1.files) ∧
    (∀ r, r ∈ fsPaths (download_image image_info dp album st).1.files →
      r ∈ fsPaths st.files ∨ r.head? = some "Skipped_Images") ∧
    ((image_info.urlResult = none ∨ image_info.transfer ≠ TransferResult.success) →
      (∃ reason, (download_image image_info dp album st).1.failed_downloads =
        st.failed_downloads ++ [((dp.getLast?).getD "", album, reason)]) ∧
      quarantinePath st.files ("Skipped_Images" :: dp.dropLast) ((dp.getLast?).getD "") ∉
        fsPaths (download_image image_info dp album st).1.files) := by
  obtain ⟨hqnot, ⟨nm, hqshape⟩, _, _⟩ :=
    quarantinePath_spec st.files ("Skipped_Images" :: dp.dropLast) ((dp.getLast?).getD "")
  have hqhead : (quarantinePath st.files ("Skipped_Images" :: dp.dropLast)
      ((dp.getLast?).getD "")).head? = some "Skipped_Images" := by
    rw [hqshape]
    rfl
  have hqdrop : (quarantinePath st.files ("Skipped_Images" :: dp.dropLast)
      ((dp.getLast?).getD "")).dropLast = "Skipped_Images" :: dp.dropLast := by
    rw [hqshape]
    exact List.dropLast_concat
  set q := quarantinePath st.files ("Skipped_Images" :: dp.dropLast)
    ((dp.getLast?).getD "") with hqdef
  rcases hu : image_info.urlResult with _ | u
  · simp only [download_image, if_pos hex, hu, Option.getD_some]
    exact ⟨trivial, trivial, fun r hr => hr, fun r hr => Or.inl hr,
      fun _ => ⟨⟨_, rfl⟩, hqnot⟩⟩
  · rcases htr : image_info.transfer with _ | status | wp | ⟨excName, msg, wp⟩
    · -- success
      simp only [download_image, if_pos hex, hu, htr, Option.getD_some]
      rw [← hqdef]
      have hside : (q.dropLast ++
          [(pySplitExt ((q.getLast?).getD "")).1 ++ ".txt"]).head? =
          some "Skipped_Images" := by
        rw [hqdrop]
        rfl
      obtain ⟨hsk, hfd, hts, _⟩ := save_image_metadata_preserves image_info q
        { st with
          total_skipped := st.total_skipped + 1,
          skipped_log := st.skipped_log ++ [((dp.getLast?).getD "", album,
            (if image_info.imageKey = "" then "no-key" else image_info.imageKey), dp, q)],
          files := fsWrite st.files q "" }
      rcases save_image_metadata_files image_info q
        { st with
          total_skipped := st.total_skipped + 1,
          skipped_log := st.skipped_log ++ [((dp.getLast?).getD "", album,
            (if image_info.imageKey = "" then "no-key" else image_info.imageKey), dp, q)],
          files := fsWrite st.files q "" } with hfiles | hfiles
      · refine ⟨hsk, hts, ?_, ?_, ?_⟩
        · intro r hr
          rw [hfiles]
          rw [fsPaths_write]
          exact Or.inr hr
        · intro r hr
          rw [hfiles, fsPaths_write] at hr
          rcases hr with rfl | hr
          · exact Or.inr hqhead
          · exact Or.inl hr
        · rintro (hcon | hcon)
          · exact absurd hcon (by simp)
          · exact absurd rfl hcon
      · refine ⟨hsk, hts, ?_, ?_, ?_⟩
        · intro r hr
          rw [hfiles, fsPaths_write]
          exact Or.inr ((fsPaths_write _ _ _ _).2 (Or.inr hr))
        · intro r hr
          rw [hfiles, fsPaths_write] at hr
          rcases hr with rfl | hr
          · exact Or.inr hside
          · rw [fsPaths_write] at hr
            rcases hr with rfl | hr
            · exact Or.inr hqhead
            · exact Or.inl hr
        · rintro (hcon | hcon)
          · exact absurd hcon (by simp)
          · exact absurd rfl hcon
    · -- httpError
      simp only [download_image, if_pos hex, hu, htr, Option.getD_some]
      rw [← hqdef]
      simp only [if_neg hqnot]
      exact ⟨trivial, trivial, fun r hr => hr, fun r hr => Or.inl hr,
        fun _ => ⟨⟨_, rfl⟩, hqnot⟩⟩
    · -- timeout
      cases wp with
      | false =>
          simp only [download_image, if_pos hex, hu, htr, Option.getD_some,
            Bool.false_eq_true, if_false]
          rw [← hqdef]
          simp only [if_neg hqnot]
          exact ⟨trivial, trivial, fun r hr => hr, fun r hr => Or.inl hr,
            fun _ => ⟨⟨_, rfl⟩, hqnot⟩⟩
      | true =>
          simp only [download_image, if_pos hex, hu, htr, Option.getD_some, if_true]
          rw [← hqdef]
          have hmem : q ∈ fsPaths (fsWrite st.files q "") :=
            (fsPaths_write _ _ _ _).2 (Or.inl rfl)
          simp only [if_pos hmem]
          refine ⟨trivial, trivial, ?_, ?_, ?_⟩
          · intro r hr
            rw [fsPaths_unlink, fsPaths_write]
            exact ⟨fun hrq => hqnot (hrq ▸ hr), Or.inr hr⟩
          · intro r hr
            rw [fsPaths_unlink, fsPaths_write] at hr
            rcases hr with ⟨hne, rfl | hr⟩
            · exact absurd rfl hne
            · exact Or.inl hr
          · refine fun _ => ⟨⟨_, rfl⟩, ?_⟩
            rw [fsPaths_unlink]
            rintro ⟨hne, _⟩
            exact hne rfl
    · -- otherError
      cases wp with
      | false =>
          simp only [download_image, if_pos hex, hu, htr, Option.getD_some,
            Bool.false_eq_true, if_false]
          rw [← hqdef]
          simp only [if_neg hqnot]
          exact ⟨trivial, trivial, fun r hr => hr, fun r hr => Or.inl hr,
            fun _ => ⟨⟨_, rfl⟩, hqnot⟩⟩
      | true =>
          simp only [download_image, if_pos hex, hu, htr, Option.getD_some, if_true]
          rw [← hqdef]
          have hmem : q ∈ fsPaths (fsWrite st.files q "") :=
            (fsPaths_write _ _ _ _).2 (Or.inl rfl)
          simp only [if_pos hmem]
          refine ⟨trivial, trivial, ?_, ?_, ?_⟩
          · intro r hr
            rw [fsPaths_unlink, fsPaths_write]
            exact ⟨fun hrq => hqnot (hrq ▸ hr), Or.inr hr⟩
          · intro r hr
            rw [fsPaths_unlink, fsPaths_write] at hr
            rcases hr with ⟨hne, rfl | hr⟩
            · exact absurd rfl hne
            · exact Or.inl hr
          · refine fun _ => ⟨⟨_, rfl⟩, ?_⟩
            rw [fsPaths_unlink]
            rintro ⟨hne, _⟩
            exact hne rfl

/-- C4: whenever a download's destination path already exists, the write is
redirected into the `Skipped_Images` quarantine tree mirroring the
album-relative path — the quarantine name taking the first free `_2`, `_3`,
... suffix when even the mirrored path exists — and a skipped event records
both the original and the quarantine path; the destination itself, and every
path outside the quarantine tree, is left exactly as it was.  Consequently
re-running the per-album materialization loop against a tree that already
contains every planned file creates zero new files outside `Skipped_Images`. -/
theorem C4_resume_redirects_to_quarantine :
    (∀ (image_info : ImageInfo) (dp : List String) (album : String) (st : RunState),
      dp ∈ fsPaths st.files →
      (∃ q, (download_image image_info dp album st).1.skipped_log =
          st.skipped_log ++ [((dp.getLast?).getD "", album,
            (if image_info.imageKey = "" then "no-key" else image_info.imageKey), dp, q)] ∧
        q.head? = some "Skipped_Images" ∧
        q ∉ fsPaths st.files ∧
        (("Skipped_Images" :: dp.dropLast) ++ [(dp.getLast?).getD ""] ∉ fsPaths st.files →
          q = ("Skipped_Images" :: dp.dropLast) ++ [(dp.getLast?).getD ""]) ∧
        (("Skipped_Images" :: dp.dropLast) ++ [(dp.getLast?).getD ""] ∈ fsPaths st.files →
          ∃ c, 2 ≤ c ∧
            q = ("Skipped_Images" :: dp.dropLast) ++
              [(pySplitExt ((dp.getLast?).getD "")).1 ++ "_" ++ natStr c ++
                (pySplitExt ((dp.getLast?).getD "")).2] ∧
            ∀ k, 2 ≤ k → k < c →
              ("Skipped_Images" :: dp.dropLast) ++
                [(pySplitExt ((dp.getLast?).getD "")).1 ++ "_" ++ natStr k ++
                  (pySplitExt ((dp.getLast?).getD "")).2] ∈ fsPaths st.files)) ∧
      (∀ r, r.head? ≠ some "Skipped_Images" →
        (r ∈ fsPaths (download_image image_info dp album st).1.files ↔
          r ∈ fsPaths st.files))) ∧
    (∀ (plan : List (ImageInfo × String)) (album_path : List String) (album : String)
        (st : RunState),
      (∀ e ∈ plan, album_path ++ [e.2] ∈ fsPaths st.files) →
      ∀ r, r.head? ≠ some "Skipped_Images" →
        (r ∈ fsPaths (download_images_loop plan album_path album st).files ↔
          r ∈ fsPaths st.files)) := by
  constructor
  · intro image_info dp album st hex
    obtain ⟨hsk, hts, hmono, hconv, _⟩ :=
      download_image_exists_case image_info dp album st hex
    obtain ⟨hqnot, ⟨nm, hqshape⟩, hfree, hsuf⟩ :=
      quarantinePath_spec st.files ("Skipped_Images" :: dp.dropLast) ((dp.getLast?).getD "")
    refine ⟨⟨_, hsk, ?_, hqnot, hfree, ?_⟩, ?_⟩
    · rw [hqshape]
      rfl
    · intro hmem
      obtain ⟨c, hc2, hform, hbelow⟩ := hsuf hmem
      exact ⟨c, hc2, hform, hbelow⟩
    · intro r hr
      constructor
      · intro hmem
        rcases hconv r hmem with h | h
        · exact h
        · exact absurd h hr
      · exact hmono r
  · intro plan
    induction plan with
    | nil =>
        intro album_path album st hall r hr
        exact Iff.rfl
    | cons e rest ih =>
        intro album_path album st hall r hr
        have hdest : album_path ++ [e.2] ∈ fsPaths st.files :=
          hall e (List.mem_cons_self _ _)
        obtain ⟨_, _, hmono, hconv, _⟩ :=
          download_image_exists_case e.1 (album_path ++ [e.2]) album st hdest
        have hall1 : ∀ e2 ∈ rest, album_path ++ [e2.2] ∈
            fsPaths (download_image e.1 (album_path ++ [e.2]) album st).1.files :=
          fun e2 he2 => hmono _ (hall e2 (List.mem_cons_of_mem _ he2))
        have hloop : download_images_loop (e :: rest) album_path album st =
            download_images_loop rest album_path album
              (download_image e.1 (album_path ++ [e.2]) album st).1 := rfl
        rw [hloop]
        constructor
        · intro hmem
          have h2 := (ih album_path album _ hall1 r hr).1 hmem
          rcases hconv r h2 with h | h
          · exact h
          · exact absurd h hr
        · intro hmem
          exact (ih album_path album _ hall1 r hr).2 (hmono r hmem)

/-- Witness for C4: with `A/a.jpg` already on disk, re-materializing a
one-entry plan for that path leaves membership of `A/a.jpg` in the primary
tree unchanged. -/
theorem C4_witness :
    ["A", "a.jpg"] ∈
        fsPaths (download_images_loop [(mkImage "K1" "" (some "a.jpg"), "a.jpg")]
          ["A"] "A" stPre).files ↔
      ["A", "a.jpg"] ∈ fsPaths stPre.files :=
  C4_resume_redirects_to_quarantine.2 [(mkImage "K1" "" (some "a.jpg"), "a.jpg")]
    ["A"] "A" stPre (by decide) ["A", "a.jpg"] (by decide)

/-- C10: when the destination pre-exists, the skipped counter and the
skip-log entry (naming a fresh quarantine path) are recorded before URL
resolution, so an image whose destination pre-exists and whose download then
fails (no resolvable URL, or a transfer error) records both one skip event
and one failure event, and no file exists at the quarantine path named in
the skip log. -/
theorem C10_skip_recorded_before_resolution :
    ∀ (image_info : ImageInfo) (dp : List String) (album : String) (st : RunState),
      dp ∈ fsPaths st.files →
      (image_info.urlResult = none ∨ image_info.transfer ≠ TransferResult.success) →
      ∃ q, (download_image image_info dp album st).1.skipped_log =
          st.skipped_log ++ [((dp.getLast?).getD "", album,
            (if image_info.imageKey = "" then "no-key" else image_info.imageKey), dp, q)] ∧
        (download_image image_info dp album st).1.total_skipped = st.total_skipped + 1 ∧
        (∃ reason, (download_image image_info dp album st).1.failed_downloads =
          st.failed_downloads ++ [((dp.getLast?).getD "", album, reason)]) ∧
        q ∉ fsPaths (download_image image_info dp album st).1.files ∧
        q.head? = some "Skipped_Images" := by
  intro image_info dp album st hex hfail
  obtain ⟨hsk, hts, hmono, hconv, hfailpart⟩ :=
    download_image_exists_case image_info dp album st hex
  obtain ⟨hreason, hqnot⟩ := hfailpart hfail
  obtain ⟨_, ⟨nm, hqshape⟩, _, _⟩ :=
    quarantinePath_spec st.files ("Skipped_Images" :: dp.dropLast) ((dp.getLast?).getD "")
  refine ⟨_, hsk, hts, hreason, hqnot, ?_⟩
  rw [hqshape]
  rfl

/-- Witness for C10: a pre-existing destination plus an unresolvable URL
produce exactly one more skip. -/
theorem C10_witness :
    (download_image imgNoUrl ["A", "a.jpg"] "A" stPre).1.total_skipped =
      stPre.total_skipped + 1 := by
  obtain ⟨q, hsk, hts, _, _, _⟩ := C10_skip_recorded_before_resolution imgNoUrl
    ["A", "a.jpg"] "A" stPre (by decide) (by decide)
  exact hts

/-- C6: a download attempt that fails with a non-success HTTP status, a
timeout, or any other transport error appends exactly one failure event with
a short machine-readable reason, deletes any partially-written file so that
no file is left at the attempted destination path, and returns `false`
without raising; the HTTP 500 reason string contains `"500"`. -/
theorem C6_failed_download_cleanup :
    (∀ (image_info : ImageInfo) (dp : List String) (album : String) (st : RunState)
        (u : String), image_info.urlResult = some u → dp ∉ fsPaths st.files →
      (∀ status, image_info.transfer = TransferResult.httpError status →
        (download_image image_info dp album st).1.failed_downloads =
          st.failed_downloads ++ [((dp.getLast?).getD "", album,
            "HTTP " ++ natStr status ++ " error")] ∧
        dp ∉ fsPaths (download_image image_info dp album st).1.files ∧
        (download_image image_info dp album st).2 = false) ∧
      (∀ wp, image_info.transfer = TransferResult.timeout wp →
        (download_image image_info dp album st).1.failed_downloads =
          st.failed_downloads ++ [((dp.getLast?).getD "", album,
            "Download timeout (>30s)")] ∧
        dp ∉ fsPaths (download_image image_info dp album st).1.files ∧
        (download_image image_info dp album st).2 = false) ∧
      (∀ excName msg wp,
        image_info.transfer = TransferResult.otherError excName msg wp →
        (download_image image_info dp album st).1.failed_downloads =
          st.failed_downloads ++ [((dp.getLast?).getD "", album,
            excName ++ ": " ++ msg)] ∧
        dp ∉ fsPaths (download_image image_info dp album st).1.files ∧
        (download_image image_info dp album st).2 = false)) ∧
    "500".data <:+: ("HTTP " ++ natStr 500 ++ " error").data := by
  refine ⟨?_, ⟨"HTTP ".data, " error".data, by decide⟩⟩
  intro image_info dp album st u hurl hno
  refine ⟨?_, ?_, ?_⟩
  · intro status htr
    simp only [download_image, if_neg hno, hurl, htr, Option.getD_none]
    exact ⟨by trivial, hno, by trivial⟩
  · intro wp htr
    cases wp with
    | false =>
        simp only [download_image, if_neg hno, hurl, htr, Option.getD_none,
          Bool.false_eq_true, if_false]
        exact ⟨by trivial, hno, by trivial⟩
    | true =>
        simp only [download_image, if_neg hno, hurl, htr, Option.getD_none, if_true]
        have hmem : dp ∈ fsPaths (fsWrite st.files dp "") :=
          (fsPaths_write _ _ _ _).2 (Or.inl rfl)
        simp only [if_pos hmem]
        refine ⟨by trivial, ?_, by trivial⟩
        rw [fsPaths_unlink]
        rintro ⟨hne, _⟩
        exact hne rfl
  · intro excName msg wp htr
    cases wp with
    | false =>
        simp only [download_image, if_neg hno, hurl, htr, Option.getD_none,
          Bool.false_eq_true, if_false]
        exact ⟨by trivial, hno, by trivial⟩
    | true =>
        simp only [download_image, if_neg hno, hurl, htr, Option.getD_none, if_true]
        have hmem : dp ∈ fsPaths (fsWrite st.files dp "") :=
          (fsPaths_write _ _ _ _).2 (Or.inl rfl)
        simp only [if_pos hmem]
        refine ⟨by trivial, ?_, by trivial⟩
        rw [fsPaths_unlink]
        rintro ⟨hne, _⟩
        exact hne rfl

/-- Witness for C6: an HTTP 500 on a fresh destination records one failure
event mentioning 500 and leaves no file at the destination. -/
theorem C6_witness :
    (download_image imgHttp500 ["A", "a.jpg"] "A" initRunState).1.failed_downloads =
      initRunState.failed_downloads ++ [("a.jpg", "A", "HTTP " ++ natStr 500 ++ " error")] ∧
    ["A", "a.jpg"] ∉ fsPaths (download_image imgHttp500 ["A", "a.jpg"] "A"
      initRunState).1.files := by
  have h := (C6_failed_download_cleanup.1 imgHttp500 ["A", "a.jpg"] "A" initRunState
    "https://example/img" (by decide) (by decide)).1 500 (by decide)
  exact ⟨h.1, h.2.1⟩

theorem save_album_metadata_total_folders (a : AlbumInfo) (p : List String)
    (s : RunState) :
    (save_album_metadata a p s).total_folders = s.total_folders := by
  simp only [save_album_metadata]
  split
  · rfl
  · split
    · rfl
    · rfl

theorem download_image_total_folders (image_info : ImageInfo) (dp : List String)
    (album : String) (st : RunState) :
    (download_image image_info dp album st).1.total_folders = st.total_folders := by
  simp only [download_image]
  repeat' split
  all_goals first
    | rfl
    | exact (save_image_metadata_preserves _ _ _).2.2.2

theorem download_images_loop_total_folders (plan : List (ImageInfo × String))
    (album_path : List String) (album : String) (st : RunState) :
    (download_images_loop plan album_path album st).total_folders = st.total_folders := by
  induction plan generalizing st with
  | nil => rfl
  | cons e rest ih =>
      have hstep : download_images_loop (e :: rest) album_path album st =
          download_images_loop rest album_path album
            (download_image e.1 (album_path ++ [e.2]) album st).1 := rfl
      rw [hstep, ih, download_image_total_folders]

theorem process_album_total_folders (a : AlbumInfo) (p : List String) (st : RunState) :
    (process_album a p st).total_folders = st.total_folders := by
  simp only [process_album]
  split
  · rfl
  · split
    · exact save_album_metadata_total_folders _ _ _
    · split
      · exact save_album_metadata_total_folders _ _ _
      · rw [download_images_loop_total_folders]
        exact save_album_metadata_total_folders _ _ _

theorem process_albums_list_total_folders (albums : List AlbumInfo) (p : List String)
    (st : RunState) :
    (process_albums_list albums p st).total_folders = st.total_folders := by
  induction albums generalizing st with
  | nil => rfl
  | cons a rest ih =>
      have hstep : process_albums_list (a :: rest) p st =
          process_albums_list rest p (process_album a p st) := rfl
      rw [hstep, ih, process_album_total_folders]

theorem process_folder_albums_total_folders
    (albumsFetch : Option (FetchOutcome (List AlbumInfo))) (fp : List String)
    (st : RunState) :
    (process_folder_albums albumsFetch fp st).total_folders = st.total_folders := by
  cases albumsFetch with
  | none => rfl
  | some o =>
      cases o with
      | exn m => rfl
      | resp status albums =>
          by_cases hs : status = 200
          · simp only [process_folder_albums, if_pos hs,
              process_albums_list_total_folders]
          · simp only [process_folder_albums, if_neg hs]

theorem process_folder_list_count_aux :
    ∀ (n : Nat) (l : List FolderTree), sizeOf l ≤ n → ∀ (p : List String) (st : RunState),
      (process_folder_list l p st).total_folders =
        st.total_folders + visit_count_list l := by
  intro n
  induction n with
  | zero =>
      intro l hl p st
      cases l with
      | nil => simp [process_folder_list, visit_count_list]
      | cons f fs =>
          exfalso
          have hpos : 1 ≤ sizeOf (f :: fs) := by
            first
            | (simp <;> omega)
            | omega
          omega
  | succ n ih =>
      intro l hl p st
      cases l with
      | nil => simp [process_folder_list, visit_count_list]
      | cons f fs =>
          have hstep : process_folder_list (f :: fs) p st =
              process_folder_list fs p (process_folder f p st) := rfl
          have hsize : sizeOf (f :: fs) = 1 + sizeOf f + sizeOf fs := by
            simp
          have hsizefs : sizeOf fs ≤ n := by omega
          have hsizef : sizeOf f ≤ n := by omega
          have hfcount : (process_folder f p st).total_folders =
              st.total_folders + visit_count f := by
            clear hstep hsize hl hsizefs
            cases f with
            | node name albumsFetch subsFetch =>
              cases subsFetch with
              | none =>
                  simp only [process_folder, visit_count]
                  rw [process_folder_albums_total_folders]
                  all_goals first
                  | (dsimp only <;> omega)
                  | omega
              | some o =>
                  cases o with
                  | exn m =>
                      simp only [process_folder, visit_count]
                      rw [process_folder_albums_total_folders]
                      all_goals first
                      | (dsimp only <;> omega)
                      | omega
                  | resp status subs =>
                      have hsubs : sizeOf subs ≤ n := by
                        have h1 : sizeOf (FolderTree.node name albumsFetch
                            (some (FetchOutcome.resp status subs))) =
                            1 + sizeOf name + sizeOf albumsFetch +
                              (1 + (1 + sizeOf status + sizeOf subs)) := by
                          simp
                        omega
                      simp only [process_folder, visit_count]
                      by_cases hs : status = 200
                      · simp only [if_pos hs]
                        rw [ih subs hsubs, process_folder_albums_total_folders]
                        all_goals first
                        | (dsimp only <;> omega)
                        | omega
                      · simp only [if_neg hs]
                        rw [process_folder_albums_total_folders]
                        all_goals first
                        | (dsimp only <;> omega)
                        | omega
          rw [hstep, ih fs hsizefs, hfcount]
          simp only [visit_count_list]
          omega

theorem process_folder_list_count (l : List FolderTree) (p : List String)
    (st : RunState) :
    (process_folder_list l p st).total_folders =
      st.total_folders + visit_count_list l :=
  process_folder_list_count_aux (sizeOf l) l le_rfl p st

theorem process_folder_count (f : FolderTree) (p : List String) (st : RunState) :
    (process_folder f p st).total_folders = st.total_folders + visit_count f := by
  have h := process_folder_list_count [f] p st
  have hstep : process_folder_list [f] p st = process_folder f p st := rfl
  rw [hstep] at h
  rw [h]
  simp [visit_count_list]

/-- C7 counterexample: a paginated image listing whose second page request
fails with HTTP 500 does not give the caller an empty sequence — it returns
the images accumulated from the first page. -/
theorem C7_counterexample :
    PageResult.httpError 500 ∈ pagesC7 ∧
    fetch_images pagesC7 = [mkImage "K1" "" (some "a.jpg")] ∧
    fetch_images pagesC7 ≠ [] := by
  refine ⟨by decide, by decide, by decide⟩

/-- C7 amended: every listing failure is caught at the call site and never
propagates — a failing first page yields the empty sequence, a failure after
successful pages yields exactly the images accumulated so far, and folder
traversal continues past any per-folder fetch failure: the traversal of a
sibling list always visits every sibling (the folder counter grows by the
visit count of each tree, independent of the others' fetch outcomes). -/
theorem C7_amended_listing_failures :
    (∀ (s : Nat) (rest : List PageResult),
      fetch_images (PageResult.httpError s :: rest) = []) ∧
    (∀ (m : String) (rest : List PageResult),
      fetch_images (PageResult.exn m :: rest) = []) ∧
    (∀ (imgs : List ImageInfo) (rest : List PageResult),
      fetch_images (PageResult.ok imgs none :: rest) = imgs) ∧
    (∀ (imgs : List ImageInfo) (u : String) (rest : List PageResult),
      fetch_images (PageResult.ok imgs (some u) :: rest) = imgs ++ fetch_images rest) ∧
    (∀ (trees : List FolderTree) (p : List String) (st : RunState),
      (process_folder_list trees p st).total_folders =
        st.total_folders + visit_count_list trees) := by
  exact ⟨fun s rest => rfl, fun m rest => rfl, fun imgs rest => rfl,
    fun imgs u rest => rfl, process_folder_list_count⟩

/-- C8 counterexample: a non-200 HTTP status on the top-level folders request
does not terminate the run with a non-zero exit status — `download_all` logs
the error and returns normally (`none` = no forced exit, i.e. exit status 0). -/
theorem C8_counterexample :
    (download_all (RootFetch.resp 500 []) initRunState).2 = none := by
  rfl

/-- C8 amended: a transport exception while fetching or processing the root
folder listing reaches the top-level handler and forces `sys.exit(1)` (exit
status 1), while a non-200 HTTP status on the top-level folders request logs
an error and returns normally — no folder is processed and the exit status
is zero. -/
theorem C8_amended_root_failure :
    (∀ (msg : String) (st : RunState),
      (download_all (RootFetch.exn msg) st).2 = some 1) ∧
    (∀ (status : Nat) (folders : List FolderTree) (st : RunState), status ≠ 200 →
      download_all (RootFetch.resp status folders) st = (st, none)) := by
  constructor
  · intro msg st
    rfl
  · intro status folders st h
    simp [download_all, h]

/-- Witness for the amended C8 theorem at status 500. -/
theorem C8_amended_witness :
    (500 ≠ 200) ∧
    download_all (RootFetch.resp 500 []) initRunState = (initRunState, none) :=
  ⟨by decide, C8_amended_root_failure.2 500 [] initRunState (by decide)⟩

/-- C9 counterexample: for an album named `My Album` the sidecar writer
derives the filename `My_Album.txt` (spaces are replaced by underscores
before sanitizing), not `sanitize_filename "My Album" ++ ".txt"`, so the
claim's description of the derived album path is false. -/
theorem C9_counterexample :
    (save_album_metadata albumC9 ["F"] initRunState).files.map Prod.fst =
      [["F", "My_Album.txt"]] ∧
    "My_Album.txt" ≠ sanitize_filename "My Album" ++ ".txt" := by
  refine ⟨by decide, by decide⟩

/-- C9 amended: the sidecar writers are no-ops exactly when a sidecar already
exists at the derived path or all three metadata fields are empty, and
otherwise write the present fields, one labeled line each, in a fixed order
(the content functions below); the derived path is, for an image, the image
path with its extension replaced by `.txt`, and, for an album, the album
name with spaces replaced by underscores and then sanitized, plus `.txt`,
inside the album directory. -/
theorem C9_amended_sidecar_writers :
    (∀ (image_info : ImageInfo) (p : List String) (fn : String) (st : RunState),
      ((p ++ [(pySplitExt fn).1 ++ ".txt"] ∈ fsPaths st.files ∨
          (image_info.title = "" ∧ image_info.caption = "" ∧
            image_info.keywords = "")) →
        save_image_metadata image_info (p ++ [fn]) st = st) ∧
      (p ++ [(pySplitExt fn).1 ++ ".txt"] ∉ fsPaths st.files →
        ¬(image_info.title = "" ∧ image_info.caption = "" ∧
            image_info.keywords = "") →
        save_image_metadata image_info (p ++ [fn]) st = { st with
          files := fsWrite st.files (p ++ [(pySplitExt fn).1 ++ ".txt"])
            (image_sidecar_content image_info),
          total_metadata_saved := st.total_metadata_saved + 1 })) ∧
    (∀ (album_info : AlbumInfo) (album_path : List String) (st : RunState),
      ((album_path ++ [sanitize_filename
            (((album_info.name.getD "album").data.map
              (fun c => if c = ' ' then '_' else c)).asString) ++ ".txt"] ∈
          fsPaths st.files ∨
          (album_info.name.getD "" = "" ∧ album_info.description = "" ∧
            album_info.keywords = "")) →
        save_album_metadata album_info album_path st = st) ∧
      ((album_path ++ [sanitize_filename
            (((album_info.name.getD "album").data.map
              (fun c => if c = ' ' then '_' else c)).asString) ++ ".txt"] ∉
          fsPaths st.files) →
        ¬(album_info.name.getD "" = "" ∧ album_info.description = "" ∧
            album_info.keywords = "") →
        save_album_metadata album_info album_path st = { st with
          files := fsWrite st.files (album_path ++ [sanitize_filename
              (((album_info.name.getD "album").data.map
                (fun c => if c = ' ' then '_' else c)).asString) ++ ".txt"])
            (album_sidecar_content album_info),
          total_album_metadata_saved := st.total_album_metadata_saved + 1 })) := by
  constructor
  · intro image_info p fn st
    have hpath : (p ++ [fn]).dropLast ++
        [(pySplitExt (((p ++ [fn]).getLast?).getD "")).1 ++ ".txt"] =
        p ++ [(pySplitExt fn).1 ++ ".txt"] := by
      rw [List.dropLast_concat, List.getLast?_concat]
      rfl
    constructor
    · intro h
      rcases h with hmem | hempty
      · simp only [save_image_metadata, hpath, if_pos hmem]
      · simp only [save_image_metadata, hpath]
        by_cases hmem : p ++ [(pySplitExt fn).1 ++ ".txt"] ∈ fsPaths st.files
        · simp only [if_pos hmem]
        · simp only [if_neg hmem, if_pos hempty]
    · intro hmem hfields
      simp only [save_image_metadata, hpath, if_neg hmem, if_neg hfields]
  · intro album_info album_path st
    constructor
    · intro h
      rcases h with hmem | hempty
      · simp only [save_album_metadata, if_pos hmem]
      · simp only [save_album_metadata]
        by_cases hmem : album_path ++ [sanitize_filename
            (((album_info.name.getD "album").data.map
              (fun c => if c = ' ' then '_' else c)).asString) ++ ".txt"] ∈
            fsPaths st.files
        · simp only [if_pos hmem]
        · simp only [if_neg hmem, if_pos hempty]
    · intro hmem hfields
      simp only [save_album_metadata, if_neg hmem, if_neg hfields]

/-- Witness for the amended C9 theorem: with the sidecar `A/a.txt` already on
disk, writing metadata for image `A/a.jpg` is a no-op. -/
theorem C9_amended_witness :
    save_image_metadata (mkImage "K1" "" (some "a.jpg")) (["A"] ++ ["a.jpg"]) stSide =
      stSide :=
  (C9_amended_sidecar_writers.1 (mkImage "K1" "" (some "a.jpg")) ["A"] "a.jpg"
    stSide).1 (Or.inl (by decide))
